import Mathlib

/-!
Verification development for the `git-rewrite-commits` repository.

The Python sources are shallowly embedded as executable Lean definitions:
  * `quality.py`   → `score_commit_message` and its helpers,
  * `redaction.py` → `redact_sensitive_data` (regex substitutions become
                     explicit scanner functions on `List Char`),
  * `git.py`       → `rewrite_history` (the msg-filter counter script),
  * `rewriter.py`  → consent checking, the per-commit decision loop and the
                     outer `rewrite` control flow.
Strings are modelled as `List Char` where scanning is needed; Python `re`
substitution (non-overlapping, leftmost, left-to-right) is modelled by
`subRec`.  ASCII semantics are used for case folding, matching the ASCII
patterns of the source.
-/

namespace GitRewriteCommits

/-! ### Character classes (ASCII, mirroring the `re` character classes) -/

def isUpperAZ (c : Char) : Bool := decide ('A' ≤ c) && decide (c ≤ 'Z')

def isLowerAZ (c : Char) : Bool := decide ('a' ≤ c) && decide (c ≤ 'z')

def isDigit09 (c : Char) : Bool := decide ('0' ≤ c) && decide (c ≤ '9')

def isAlphaAscii (c : Char) : Bool := isUpperAZ c || isLowerAZ c

def isAlnumAscii (c : Char) : Bool := isAlphaAscii c || isDigit09 c

/-- `[0-9A-Z]` — the AWS access key character class. -/
def isUpperAlnum (c : Char) : Bool := isUpperAZ c || isDigit09 c

/-- Python `\s` on ASCII text: space, tab, newline, carriage return,
vertical tab, form feed. -/
def isWsPy (c : Char) : Bool :=
  c == ' ' || c == '\t' || c == '\n' || c == '\r' || c == '\x0b' || c == '\x0c'

def isQuoteCh (c : Char) : Bool := c == '\'' || c == '"'

/-- ASCII lower-casing, as applied char-by-char by `str.lower()` on the
ASCII inputs relevant here. -/
def lowERChar (c : Char) : Char :=
  if isUpperAZ c then Char.ofNat (c.toNat + 32) else c

/-! ### List-of-characters helpers -/

/-- If `p` is a prefix of `l`, return the rest of `l`. -/
def dropPre : List Char → List Char → Option (List Char)
  | [], l => some l
  | _ :: _, [] => none
  | p :: ps, c :: cs => if p == c then dropPre ps cs else none

/-- Case-insensitive (ASCII) version of `dropPre`. -/
def dropPreCi : List Char → List Char → Option (List Char)
  | [], l => some l
  | _ :: _, [] => none
  | p :: ps, c :: cs => if lowERChar p == lowERChar c then dropPreCi ps cs else none

/-- Try a regex alternation `(a₁|a₂|…)` of literal words at the head of `l`:
first alternative (in order) that is a prefix wins; returns it and the rest. -/
def matchAlt : List (List Char) → List Char → Option (List Char × List Char)
  | [], _ => none
  | a :: rest, l =>
    match dropPre a l with
    | some r => some (a, r)
    | none => matchAlt rest l

/-- Case-insensitive alternation of literal words; returns the length of the
matched prefix (so the original-case text can be recovered) and the rest. -/
def matchAltCi : List (List Char) → List Char → Option (Nat × List Char)
  | [], _ => none
  | a :: rest, l =>
    match dropPreCi a l with
    | some r => some (a.length, r)
    | none => matchAltCi rest l

/-- `needle` occurs as a contiguous substring of `l`. -/
def infixB (needle : List Char) : List Char → Bool
  | [] => needle.isEmpty
  | c :: cs => (dropPre needle (c :: cs)).isSome || infixB needle cs

/-- At least `n` leading characters of `l` satisfy `p` (`p{n}` followed by
anything). -/
def runAtLeast (p : Char → Bool) : Nat → List Char → Bool
  | 0, _ => true
  | _ + 1, [] => false
  | n + 1, c :: cs => p c && runAtLeast p n cs

/-! ### `quality.py` — `score_commit_message` -/

/-- The conventional-commit type alternation of `quality.py`. -/
def convTypes : List (List Char) :=
  ["feat", "fix", "docs", "style", "refactor", "test", "chore", "perf", "ci",
   "build", "revert"].map String.toList

/-- `: .+` — a colon, a space, and at least one non-newline character
(`.` without `re.DOTALL`). -/
def colonDotPlus : List Char → Bool
  | ':' :: ' ' :: c :: _ => c != '\n'
  | _ => false

/-- `: [a-z]` — a colon, a space, and one lowercase letter. -/
def colonLower : List Char → Bool
  | ':' :: ' ' :: c :: _ => isLowerAZ c
  | _ => false

/-- `(\([^)]+\))?` followed by the continuation `k`.  The scope body `[^)]+`
cannot contain `)`, so it is the maximal run up to the first `)`; if the
scope fails to close, the optional group backtracks to empty, and `k` is
then attempted at the `(` (which fails for both continuations used here,
but is modelled faithfully). -/
def optScope (k : List Char → Bool) (l : List Char) : Bool :=
  match l with
  | '(' :: cs =>
    let inner := cs.takeWhile (· != ')')
    (match cs.drop inner.length with
     | ')' :: cs2 => !inner.isEmpty && k cs2
     | _ => false)
    || k l
  | _ => k l

/-- `^(feat|fix|…|revert)(\([^)]+\))?: .+` (the types are pairwise
non-prefix, so at most one alternative can apply). -/
def conventionalMatch (l : List Char) : Bool :=
  match matchAlt convTypes l with
  | some (_, r) => optScope colonDotPlus r
  | none => false

/-- `^(feat|fix|…|revert)?(\([^)]+\))?: [a-z]` — the type is optional, so on
failure of the typed branch the untyped branch is also tried. -/
def presentTenseMatch (l : List Char) : Bool :=
  (match matchAlt convTypes l with
   | some (_, r) => optScope colonLower r
   | none => false)
  || optScope colonLower l

/-- `message.split("\n")[0]`. -/
def firstLineOf (l : List Char) : List Char := l.takeWhile (· != '\n')

/-- Python `str.strip(".")`: remove leading and trailing `.` characters. -/
def stripDots (l : List Char) : List Char :=
  ((l.dropWhile (· == '.')).reverse.dropWhile (· == '.')).reverse

def genericMessages : List (List Char) :=
  ["update", "fix", "change", "modify", "commit", "initial", "test", "wip",
   "tmp", "temp"].map String.toList

/-- `msg_lower == generic or msg_lower == f"{generic} commit"` over the
generic list, with `msg_lower = message.lower().strip(".")`. -/
def isGenericMsg (l : List Char) : Bool :=
  let m := stripDots (l.map lowERChar)
  genericMessages.any (fun g => m == g || m == g ++ (' ' :: String.toList "commit"))

def endsWithDot (l : List Char) : Bool :=
  match l.getLast? with
  | some '.' => true
  | _ => false

/-- The accumulated score of `score_commit_message`. -/
def scoreVal (msg : List Char) : Nat :=
  let fl := firstLineOf msg
  (if conventionalMatch msg then 4 else 0)
  + (if 10 ≤ fl.length ∧ fl.length ≤ 72 then 2 else 0)
  + (if isGenericMsg msg then 0 else 2)
  + (if presentTenseMatch msg then 1 else 0)
  + (if endsWithDot fl then 0 else 1)

/-- The accumulated `reasons` list of `score_commit_message`, in source
order. -/
def scoreReasons (msg : List Char) : List String :=
  let fl := firstLineOf msg
  (if conventionalMatch msg then ["follows conventional format"] else [])
  ++ (if 10 ≤ fl.length ∧ fl.length ≤ 72 then ["appropriate length"]
      else if fl.length < 10 then ["too short"] else ["too long"])
  ++ (if isGenericMsg msg then ["too generic"] else ["descriptive"])
  ++ (if presentTenseMatch msg then ["uses present tense"] else [])
  ++ (if endsWithDot fl then [] else ["no trailing period"])

def joinComma : List String → String
  | [] => ""
  | [s] => s
  | s :: rest => s ++ ", " ++ joinComma rest

/-- `score_commit_message(message) -> (score, is_well_formed, reason)`.
The well-formed verdict is the hard-coded `score >= 7` of the source. -/
def score_commit_message (msg : String) : Nat × Bool × String :=
  (scoreVal msg.toList,
   decide (7 ≤ scoreVal msg.toList),
   if (scoreReasons msg.toList).isEmpty then "no specific issues"
   else joinComma (scoreReasons msg.toList))

/-! ### `redaction.py` — `redact_sensitive_data`

Python `re.sub` replaces non-overlapping matches, scanning left to right;
`subRec` is that loop for a matcher `m` that, at a given suffix, returns the
replacement text and the number of characters consumed (every pattern of
the source consumes at least one character). -/

def subRecFuel (m : List Char → Option (List Char × Nat)) :
    Nat → List Char → List Char
  | _, [] => []
  | 0, l => l
  | fuel + 1, c :: cs =>
    match m (c :: cs) with
    | some (rep, n) => rep ++ subRecFuel m fuel (cs.drop (n - 1))
    | none => c :: subRecFuel m fuel cs

/-- The scan with fuel equal to the input length; every step consumes at
least one character of the remaining input, so the fuel never runs out. -/
def subRec (m : List Char → Option (List Char × Nat)) (l : List Char) :
    List Char := subRecFuel m l.length l

/-- Trailing `['\"]?` after a body match of `n` characters within `l`:
greedily absorb one following quote into the match (kept by `\3`). -/
def quotedTail (token : List Char) (n : Nat) (l : List Char) :
    List Char × Nat :=
  match l.drop n with
  | c2 :: _ => if isQuoteCh c2 then (token ++ [c2], n + 1) else (token, n)
  | [] => (token, n)

/-- `(['\"]?)body(['\"]?)` with replacement `\1token\3`: a leading quote is
taken greedily (and kept by `\1`); if the body then fails, the optional
group backtracks to empty and the body is retried at the quote itself. -/
def quotedSub (body : List Char → Option Nat) (token : List Char)
    (l : List Char) : Option (List Char × Nat) :=
  match l with
  | [] => none
  | c :: cs =>
    if isQuoteCh c then
      match body cs with
      | some n =>
        match quotedTail token n cs with
        | (rep, k) => some (c :: rep, k + 1)
      | none =>
        match body (c :: cs) with
        | some n => some (quotedTail token n (c :: cs))
        | none => none
    else
      match body l with
      | some n => some (quotedTail token n l)
      | none => none

/-- `sk-[a-zA-Z0-9]{32,}|sk_[a-zA-Z0-9_-]{32,}` (OpenAI keys). -/
def isSkuChar (c : Char) : Bool := isAlnumAscii c || c == '_' || c == '-'

def bodyOpenai (l : List Char) : Option Nat :=
  match dropPre (String.toList "sk-") l with
  | some r =>
    let run := r.takeWhile isAlnumAscii
    if 32 ≤ run.length then some (3 + run.length) else none
  | none =>
    match dropPre (String.toList "sk_") l with
    | some r =>
      let run := r.takeWhile isSkuChar
      if 32 ≤ run.length then some (3 + run.length) else none
    | none => none

/-- `ghp_…|ghs_…|gho_…` with `[a-zA-Z0-9]{36,}` (GitHub tokens). -/
def bodyGithub (l : List Char) : Option Nat :=
  match matchAlt (["ghp_", "ghs_", "gho_"].map String.toList) l with
  | some (pre, r) =>
    let run := r.takeWhile isAlnumAscii
    if 36 ≤ run.length then some (pre.length + run.length) else none
  | none => none

def isSlackChar (c : Char) : Bool := isAlnumAscii c || c == '-'

/-- `xox[pboa]-[a-zA-Z0-9-]{10,}` (Slack tokens). -/
def bodySlack (l : List Char) : Option Nat :=
  match l with
  | 'x' :: 'o' :: 'x' :: k :: '-' :: rest =>
    if k == 'p' || k == 'b' || k == 'o' || k == 'a' then
      let run := rest.takeWhile isSlackChar
      if 10 ≤ run.length then some (5 + run.length) else none
    else none
  | _ => none

/-- `sk_live_…|pk_live_…|sk_test_…|pk_test_…` with `[a-zA-Z0-9]{24,}`
(Stripe keys). -/
def bodyStripe (l : List Char) : Option Nat :=
  match matchAlt
      (["sk_live_", "pk_live_", "sk_test_", "pk_test_"].map String.toList) l with
  | some (pre, r) =>
    let run := r.takeWhile isAlnumAscii
    if 24 ≤ run.length then some (pre.length + run.length) else none
  | none => none

def isJwtChar (c : Char) : Bool := isAlnumAscii c || c == '_' || c == '-'

/-- `eyJ[a-zA-Z0-9_-]+\.eyJ[a-zA-Z0-9_-]+\.[a-zA-Z0-9_-]+` (JWTs); the
character class excludes `.`, so each run is the maximal class run. -/
def bodyJwt (l : List Char) : Option Nat :=
  match dropPre (String.toList "eyJ") l with
  | some r1 =>
    let run1 := r1.takeWhile isJwtChar
    if run1.isEmpty then none else
    match r1.drop run1.length with
    | '.' :: r2 =>
      match dropPre (String.toList "eyJ") r2 with
      | some r3 =>
        let run2 := r3.takeWhile isJwtChar
        if run2.isEmpty then none else
        match r3.drop run2.length with
        | '.' :: r4 =>
          let run3 := r4.takeWhile isJwtChar
          if run3.isEmpty then none
          else some (3 + run1.length + 4 + run2.length + 1 + run3.length)
        | _ => none
      | none => none
    | _ => none
  | none => none

/-- `sk-[a-f0-9]{48,}` (DeepSeek keys). -/
def isHexLower (c : Char) : Bool :=
  (decide ('a' ≤ c) && decide (c ≤ 'f')) || isDigit09 c

def bodyDeepseek (l : List Char) : Option Nat :=
  match dropPre (String.toList "sk-") l with
  | some r =>
    let run := r.takeWhile isHexLower
    if 48 ≤ run.length then some (3 + run.length) else none
  | none => none

/-- The AWS-key replacement token `[REDACTED_AWS_ACCESS_KEY]`. -/
def tokAws : List Char :=
  ['[', 'R', 'E', 'D', 'A', 'C', 'T', 'E', 'D', '_', 'A', 'W', 'S', '_',
   'A', 'C', 'C', 'E', 'S', 'S', '_', 'K', 'E', 'Y', ']']

/-- Pointwise matching of a list of character predicates against the head
of a list (a fixed-shape regex fragment). -/
def matchesPreds : List (Char → Bool) → List Char → Bool
  | [], _ => true
  | _ :: _, [] => false
  | p :: ps, c :: cs => p c && matchesPreds ps cs

/-- The shape `AKIA[0-9A-Z]{16}` as character predicates. -/
def akiaPreds : List (Char → Bool) :=
  (fun c => c == 'A') :: (fun c => c == 'K') :: (fun c => c == 'I') ::
  (fun c => c == 'A') :: List.replicate 16 isUpperAlnum

/-- `AKIA[0-9A-Z]{16}` matches at the head of `l`. -/
def startsAkia (l : List Char) : Bool := matchesPreds akiaPreds l

/-- The AWS access key substitution `AKIA[0-9A-Z]{16}` →
`[REDACTED_AWS_ACCESS_KEY]` (a match always consumes 20 characters). -/
def mAws (l : List Char) : Option (List Char × Nat) :=
  if startsAkia l then some (tokAws, 20) else none

def pemLabels : List (List Char) :=
  ["RSA ", "DSA ", "EC ", "OPENSSH "].map String.toList

/-- `-----(BEGIN|END) (RSA |DSA |EC |OPENSSH )?PRIVATE KEY-----`: the
optional label is greedy with fallback to the unlabelled form. -/
def pemDelim (head : List Char) (l : List Char) : Option Nat :=
  match dropPre head l with
  | none => none
  | some r =>
    match matchAlt pemLabels r with
    | some (lab, r2) =>
      match dropPre (String.toList "PRIVATE KEY-----") r2 with
      | some _ => some (head.length + lab.length + 16)
      | none =>
        match dropPre (String.toList "PRIVATE KEY-----") r with
        | some _ => some (head.length + 16)
        | none => none
    | none =>
      match dropPre (String.toList "PRIVATE KEY-----") r with
      | some _ => some (head.length + 16)
      | none => none

/-- Lazy `[\s\S]*?` up to the earliest END delimiter: returns the offset of
the delimiter plus its length. -/
def findPemEnd : List Char → Option Nat
  | [] => none
  | c :: cs =>
    match pemDelim (String.toList "-----END ") (c :: cs) with
    | some n => some n
    | none => (findPemEnd cs).map (· + 1)

/-- The private-key block substitution. -/
def mPem (l : List Char) : Option (List Char × Nat) :=
  match pemDelim (String.toList "-----BEGIN ") l with
  | some nb =>
    match findPemEnd (l.drop nb) with
    | some ne => some (String.toList "[REDACTED_PRIVATE_KEY]", nb + ne)
    | none => none
  | none => none

def pwKeys : List (List Char) :=
  ["password", "passwd", "pwd", "secret", "api_key", "apikey", "auth_token",
   "access_token", "private_key"].map String.toList

/-- `(password|…)[\s]*[=:][\s]*['\"]([^'\"]{8,})['\"]` (ignore-case) with
replacement `\1=[REDACTED]` (`\1` keeps the key name in original case).
`[^'\"]{8,}` is the maximal non-quote run; the closing `['\"]` is whichever
quote character follows it. -/
def mPassword (l : List Char) : Option (List Char × Nat) :=
  match matchAltCi pwKeys l with
  | none => none
  | some (kLen, r1) =>
    let ws1 := r1.takeWhile isWsPy
    match r1.drop ws1.length with
    | sep :: r2 =>
      if sep == '=' || sep == ':' then
        let ws2 := r2.takeWhile isWsPy
        match r2.drop ws2.length with
        | q1 :: r3 =>
          if isQuoteCh q1 then
            let v := r3.takeWhile (fun c => !isQuoteCh c)
            if 8 ≤ v.length then
              match r3.drop v.length with
              | _ :: _ =>
                some (l.take kLen ++ String.toList "=[REDACTED]",
                  kLen + ws1.length + 1 + ws2.length + 1 + v.length + 1)
              | [] => none
            else none
          else none
        | [] => none
      else none
    | [] => none

/-- Backtracking order of the scheme alternation
`(mongodb(\+srv)?|postgres(ql)?|mysql|redis)` (greedy optional suffixes). -/
def dbCands : List (List Char) :=
  ["mongodb+srv", "mongodb", "postgresql", "postgres", "mysql", "redis"].map
    String.toList

/-- `://[^@\s]+@[^\s]+` after a scheme; replacement keeps `\1` (the scheme
as written) and substitutes the rest. -/
def mDbTail (scheme : List Char) (schemeLen : Nat) (r : List Char) :
    Option (List Char × Nat) :=
  match dropPre (String.toList "://") r with
  | some r2 =>
    let run1 := r2.takeWhile (fun c => !(c == '@') && !isWsPy c)
    if run1.isEmpty then none else
    match r2.drop run1.length with
    | '@' :: r3 =>
      let run2 := r3.takeWhile (fun c => !isWsPy c)
      if run2.isEmpty then none
      else some (scheme ++ String.toList "://[REDACTED_CONNECTION_STRING]",
        schemeLen + 3 + run1.length + 1 + run2.length)
    | _ => none
  | none => none

def mDbGo : List (List Char) → List Char → Option (List Char × Nat)
  | [], _ => none
  | cand :: rest, l =>
    match dropPreCi cand l with
    | some r =>
      match mDbTail (l.take cand.length) cand.length r with
      | some x => some x
      | none => mDbGo rest l
    | none => mDbGo rest l

/-- The database connection string substitution (ignore-case). -/
def mDb (l : List Char) : Option (List Char × Nat) := mDbGo dbCands l

def isBearerChar (c : Char) : Bool :=
  isAlnumAscii c || c == '_' || c == '-' || c == '.'

/-- `Bearer\s+[a-zA-Z0-9_\-\.]+` (ignore-case), replaced by the fixed text
`Bearer [REDACTED_TOKEN]`. -/
def mBearer (l : List Char) : Option (List Char × Nat) :=
  match dropPreCi (String.toList "Bearer") l with
  | some r =>
    let ws := r.takeWhile isWsPy
    if ws.isEmpty then none else
    let run := (r.drop ws.length).takeWhile isBearerChar
    if run.isEmpty then none
    else some (String.toList "Bearer [REDACTED_TOKEN]", 6 + ws.length + run.length)
  | none => none

def isGoogleChar (c : Char) : Bool :=
  isAlnumAscii c || (decide ('\\' ≤ c) && decide (c ≤ '_'))

/-- `AIza[0-9A-Za-z\\-_]{35}` (case-sensitive; the class is alphanumerics
plus the character range from backslash to underscore). -/
def mGoogle (l : List Char) : Option (List Char × Nat) :=
  match dropPre (String.toList "AIza") l with
  | some r =>
    if runAtLeast isGoogleChar 35 r then
      some (String.toList "[REDACTED_GOOGLE_API_KEY]", 39)
    else none
  | none => none

def mOpenai (l : List Char) : Option (List Char × Nat) :=
  quotedSub bodyOpenai (String.toList "[REDACTED_OPENAI_KEY]") l

def mGithub (l : List Char) : Option (List Char × Nat) :=
  quotedSub bodyGithub (String.toList "[REDACTED_GITHUB_TOKEN]") l

def mSlack (l : List Char) : Option (List Char × Nat) :=
  quotedSub bodySlack (String.toList "[REDACTED_SLACK_TOKEN]") l

def mStripe (l : List Char) : Option (List Char × Nat) :=
  quotedSub bodyStripe (String.toList "[REDACTED_STRIPE_KEY]") l

def mJwt (l : List Char) : Option (List Char × Nat) :=
  quotedSub bodyJwt (String.toList "[REDACTED_JWT_TOKEN]") l

def mDeepseek (l : List Char) : Option (List Char × Nat) :=
  quotedSub bodyDeepseek (String.toList "[REDACTED_DEEPSEEK_KEY]") l

/-! The hunk-suppression patterns
`^(diff --git a/.*PAT.*?$[\s\S]*?)(?=^diff --git |$)` under `re.MULTILINE`:
because `[\s\S]*?` is lazy and `$` (which matches at every end of line)
belongs to the lookahead, the match is exactly the header line (without its
newline), replaced by the sentinel plus `"\n"`.  They are therefore modelled
line-wise: a matching line becomes the sentinel line followed by an empty
line (from the replacement's own newline). -/

def splitLines : List Char → List (List Char)
  | [] => [[]]
  | c :: cs =>
    if c == '\n' then [] :: splitLines cs
    else
      match splitLines cs with
      | ln :: rest => (c :: ln) :: rest
      | [] => [[c]]

def joinLines : List (List Char) → List Char
  | [] => []
  | [ln] => ln
  | ln :: lns => ln ++ '\n' :: joinLines lns

/-- Replace every line satisfying `pred` by the sentinel line and an empty
line. -/
def lineSub (pred : List Char → Bool) (sentinel : List Char)
    (l : List Char) : List Char :=
  joinLines
    (((splitLines l).map
      (fun ln => if pred ln then [sentinel, []] else [ln])).flatten)

/-- The rest of a line after its `diff --git a/` header prefix
(`ci` selects case-insensitive matching). -/
def diffGitHeaderRest (ci : Bool) (ln : List Char) : Option (List Char) :=
  if ci then dropPreCi (String.toList "diff --git a/") ln
  else dropPre (String.toList "diff --git a/") ln

/-- `p` holds at some tail position (the effect of a scanning `.*`). -/
def scanAny (p : List Char → Bool) : List Char → Bool
  | [] => p []
  | c :: cs => p (c :: cs) || scanAny p cs

/-- `\.env(\.[a-z]+)?$` (ignore-case) at this position. -/
def envTailAt (t : List Char) : Bool :=
  match dropPreCi (String.toList ".env") t with
  | some r =>
    r.isEmpty ||
    (match r with
     | '.' :: r2 => !r2.isEmpty && r2.all isAlphaAscii
     | _ => false)
  | none => false

/-- `.*\.env(\.[a-z]+)?$` over the rest of a header line. -/
def restEnvCheck (r : List Char) : Bool := scanAny envTailAt r

/-- `.*PAT$` for a literal lowercase pattern `pat` (ignore-case). -/
def endsWithCi (pat : List Char) (r : List Char) : Bool :=
  scanAny (fun t => t.map lowERChar == pat) r

/-- `.*PAT.*?$` for a literal lowercase pattern `pat` (ignore-case). -/
def containsCi (pat : List Char) (r : List Char) : Bool :=
  infixB pat (r.map lowERChar)

def secretsExts : List (List Char) :=
  ["json", "yaml", "yml", "toml", "ini"].map String.toList

/-- `\.(json|ya?ml|toml|ini)$` (ignore-case). -/
def secretsExtAnchor (r : List Char) : Bool :=
  match r with
  | '.' :: r2 => secretsExts.any (fun e => r2.map lowERChar == e)
  | _ => false

/-- `secrets?\.(json|ya?ml|toml|ini)$` (ignore-case) at this position;
the optional `s` is greedy with fallback. -/
def secretsAt (t : List Char) : Bool :=
  match dropPreCi (String.toList "secret") t with
  | some r =>
    match r with
    | c :: r2 => (lowERChar c == 's' && secretsExtAnchor r2) || secretsExtAnchor r
    | [] => false
  | none => false

def secretsCheck (r : List Char) : Bool := scanAny secretsAt r

/-- A header line matching one of the `SENSITIVE_FILE_PATTERNS` passes
(all compiled with `re.IGNORECASE`). -/
def fileHeaderPred (restCheck : List Char → Bool) (ln : List Char) : Bool :=
  match diffGitHeaderRest true ln with
  | some r => restCheck r
  | none => false

/-- `_REDACTION_PATTERNS[0]`: a case-sensitive `diff --git a/` header line
containing `.env`. -/
def envContentPred (ln : List Char) : Bool :=
  match diffGitHeaderRest false ln with
  | some r => infixB (String.toList ".env") r
  | none => false

def sentinelFile : List Char :=
  String.toList "[SENSITIVE FILE CONTENT HIDDEN FOR SECURITY]"

def sentinelEnv : List Char :=
  String.toList "[.ENV FILE CONTENT COMPLETELY HIDDEN FOR SECURITY]"

/-- `redact_sensitive_data`: the eight sensitive-file passes in source
order, then the thirteen `_REDACTION_PATTERNS` in source order. -/
def redactList (l : List Char) : List Char :=
  let l := lineSub (fileHeaderPred restEnvCheck) sentinelFile l
  let l := lineSub (fileHeaderPred (endsWithCi (String.toList ".pem"))) sentinelFile l
  let l := lineSub (fileHeaderPred (endsWithCi (String.toList ".key"))) sentinelFile l
  let l := lineSub (fileHeaderPred (endsWithCi (String.toList ".p12"))) sentinelFile l
  let l := lineSub (fileHeaderPred (endsWithCi (String.toList ".pfx"))) sentinelFile l
  let l := lineSub (fileHeaderPred (containsCi (String.toList "id_rsa"))) sentinelFile l
  let l := lineSub (fileHeaderPred (containsCi (String.toList "credentials"))) sentinelFile l
  let l := lineSub (fileHeaderPred secretsCheck) sentinelFile l
  let l := lineSub envContentPred sentinelEnv l
  let l := subRec mOpenai l
  let l := subRec mGithub l
  let l := subRec mSlack l
  let l := subRec mAws l
  let l := subRec mStripe l
  let l := subRec mPem l
  let l := subRec mJwt l
  let l := subRec mPassword l
  let l := subRec mDb l
  let l := subRec mBearer l
  let l := subRec mDeepseek l
  let l := subRec mGoogle l
  l

def redact_sensitive_data (text : String) : String := ⟨redactList text.toList⟩

/-! ### `git.py` — `rewrite_history`

`GitRepo.rewrite_history(messages)` runs `git filter-branch --msg-filter`
with a script that reads a counter file (starting at `0`, incremented per
commit, commits visited oldest first), computes
`new_message = messages[counter] if counter < len(messages) else None`,
and prints `new_message` under `if new_message:` — Python truthiness, so
both an out-of-range counter and an empty-string decision fall back to the
old message.  There is no length check of any kind.  The message
substitution is the pure sequence transformation below. -/

/-- The per-commit msg-filter substitution, threading the counter.
`messages.getD counter ""` is `""` exactly when `new_message` is `None`
(counter out of range) or the empty string — the two falsy cases of the
script's `if new_message:`. -/
def rewrite_history (messages : List String) : List String → Nat → List String
  | [], _ => []
  | old :: olds, counter =>
    (if (messages.getD counter "").isEmpty then old
     else messages.getD counter "")
      :: rewrite_history messages olds (counter + 1)

/-- `rewrite_history` applied from counter `0`, as the filter run does. -/
def rewriteHistoryAll (messages olds : List String) : List String :=
  rewrite_history messages olds 0

/-! ### `rewriter.py` — options, per-commit decisions, control flow -/

/-- The fields of `RewriteOptions` that the modelled control flow reads
(plus `min_quality_score`, which the source stores but never reads). -/
structure RewriteOptions where
  provider : String := "openai"
  dry_run : Bool := false
  quiet : Bool := false
  skip_backup : Bool := false
  skip_well_formed : Bool := true
  min_quality_score : Nat := 7
  skip_remote_consent : Bool := false

/-- `CommitInfo` data plus the full (`%B`) message; `subject` is the `%s`
message used by the scoring gate and the comparison with the generated
message, `fullMessage` the `%B` text used for kept commits. -/
structure CommitData where
  hash : String
  subject : String
  fullMessage : String
  files : List String
  diff : String

/-- `_check_remote_api_consent`: local Ollama needs no consent; an explicit
skip flag bypasses the prompt; quiet mode fails safe (no consent); otherwise
the interactive answer decides, with interrupt/EOF (`none`) meaning `False`. -/
def checkRemoteApiConsent (opts : RewriteOptions) (ans : Option Bool) : Bool :=
  if opts.provider == "ollama" then true
  else if opts.skip_remote_consent then true
  else if opts.quiet then false
  else ans.getD false

/-- One iteration of the scanning loop of `rewrite`, for one commit: returns
the optional `message_map` entry and whether the model backend was invoked.
The backend (`_generate_commit_message`) is the injected `gen`; an
`Except.error` models an exception caught by the per-commit handler. -/
def decideOne (opts : RewriteOptions) (gen : CommitData → Except String String)
    (c : CommitData) : Option String × Bool :=
  if opts.skip_well_formed && (score_commit_message c.subject).2.1 then
    (none, false)
  else
    match gen c with
    | .error _ => (none, true)
    | .ok newMsg => (if newMsg != c.subject then some newMsg else none, true)

/-- Python-dict assignment `m[k] = v` on an association list. -/
def insertMap (m : List (String × String)) (k v : String) :
    List (String × String) :=
  match m with
  | [] => [(k, v)]
  | (k', v') :: rest =>
    if k' == k then (k, v) :: rest else (k', v') :: insertMap rest k v

/-- Python-dict lookup. -/
def lookupMap (m : List (String × String)) (k : String) : Option String :=
  match m with
  | [] => none
  | (k', v) :: rest => if k' == k then some v else lookupMap rest k

/-- The `message_map` accumulated over the scanning loop. -/
def buildMessageMap (opts : RewriteOptions)
    (gen : CommitData → Except String String) :
    List CommitData → List (String × String) → List (String × String)
  | [], m => m
  | c :: cs, m =>
    match (decideOne opts gen c).1 with
    | some newMsg => buildMessageMap opts gen cs (insertMap m c.hash newMsg)
    | none => buildMessageMap opts gen cs m

/-- The `ordered_messages` list: per commit, the `message_map` entry if one
exists, otherwise the commit's full original message. -/
def orderedMessages (opts : RewriteOptions)
    (gen : CommitData → Except String String) (commits : List CommitData) :
    List String :=
  let m := buildMessageMap opts gen commits []
  commits.map (fun c => (lookupMap m c.hash).getD c.fullMessage)

/-- Number of model-backend invocations made by the scanning loop. -/
def modelCallCount (opts : RewriteOptions)
    (gen : CommitData → Except String String) (commits : List CommitData) :
    Nat :=
  commits.countP (fun c => (decideOne opts gen c).2)

/-- `generate_for_staged`: consent decline raises
`RuntimeError("User declined to send data to remote AI provider")`; then the
staged files/diff are validated and the backend is called on the staged
data.  The composed prompt step is folded into the injected backend. -/
def generate_for_staged (opts : RewriteOptions) (stagedFiles : List String)
    (stagedDiff : String) (consentAns : Option Bool)
    (gen : List String → String → Except String String) :
    Except String String :=
  if !(checkRemoteApiConsent opts consentAns) then
    .error "User declined to send data to remote AI provider"
  else if stagedFiles.isEmpty then
    .error "No staged changes found. Stage your changes with: git add <files>"
  else if stagedDiff.trim.isEmpty then
    .error "No staged changes found"
  else
    gen stagedFiles stagedDiff

/-- Repository state read by `rewrite` (repository reads are modelled as
pure data; `applyResult` is the outcome of the `rewrite_history` plumbing). -/
structure RepoState where
  hasUncommitted : Bool
  commits : List CommitData
  applyResult : Except String Unit

/-- Answers of the interactive confirmation prompts; `none` models a
keyboard interrupt / EOF (treated as a decline by the source). -/
structure Answers where
  continueAnyway : Option Bool
  consent : Option Bool
  proceed : Option Bool
  applyConfirm : Option Bool

/-- Observable outcome of one `rewrite()` invocation. -/
structure RunOutcome where
  backupCreated : Bool
  backupDeleted : Bool
  modelCalls : Nat
  changedCount : Nat
  applyInvoked : Bool
  errorRaised : Option String
  ordered : List String
deriving DecidableEq

/-- Outcome of the early-return paths (nothing created, nothing called). -/
def noopOutcome : RunOutcome :=
  { backupCreated := false, backupDeleted := false, modelCalls := 0,
    changedCount := 0, applyInvoked := false, errorRaised := none,
    ordered := [] }

/-- `GitCommitRewriter.rewrite`, with its branch structure in source order:
uncommitted-changes confirm (prompted only when not quiet), empty range,
remote-consent check, history-rewrite warning confirm (only when neither
dry-run nor quiet), backup creation (unless skipped or dry-run), the
scanning loop, backup deletion when nothing changed, dry-run stop, apply
confirm (only when not quiet), and the apply step whose failure re-raises
with the backup retained. -/
def rewriteRun (opts : RewriteOptions) (repo : RepoState)
    (gen : CommitData → Except String String) (ans : Answers) : RunOutcome :=
  if repo.hasUncommitted && !opts.quiet && !(ans.continueAnyway.getD false) then
    noopOutcome
  else if repo.commits.isEmpty then
    noopOutcome
  else if !(checkRemoteApiConsent opts ans.consent) then
    noopOutcome
  else if !opts.dry_run && !opts.quiet && !(ans.proceed.getD false) then
    noopOutcome
  else
    let backup := !opts.skip_backup && !opts.dry_run
    let ordered := orderedMessages opts gen repo.commits
    let calls := modelCallCount opts gen repo.commits
    let changed := (buildMessageMap opts gen repo.commits []).length
    if changed = 0 then
      { backupCreated := backup, backupDeleted := backup, modelCalls := calls,
        changedCount := changed, applyInvoked := false, errorRaised := none,
        ordered := ordered }
    else if opts.dry_run then
      { backupCreated := backup, backupDeleted := false, modelCalls := calls,
        changedCount := changed, applyInvoked := false, errorRaised := none,
        ordered := ordered }
    else if !opts.quiet && !(ans.applyConfirm.getD false) then
      { backupCreated := backup, backupDeleted := false, modelCalls := calls,
        changedCount := changed, applyInvoked := false, errorRaised := none,
        ordered := ordered }
    else
      match repo.applyResult with
      | .ok _ =>
        { backupCreated := backup, backupDeleted := false, modelCalls := calls,
          changedCount := changed, applyInvoked := true, errorRaised := none,
          ordered := ordered }
      | .error e =>
        { backupCreated := backup, backupDeleted := false, modelCalls := calls,
          changedCount := changed, applyInvoked := true, errorRaised := some e,
          ordered := ordered }

/-! ### Verification-layer definitions -/

/-- Some suffix of `l` matches `AKIA[0-9A-Z]{16}` — i.e. `l` contains an
AWS-style access key. -/
def hasAkiaB : List Char → Bool
  | [] => false
  | c :: cs => startsAkia (c :: cs) || hasAkiaB cs

/-- The available characters of `s` already refute `matchesPreds ps`,
no matter what text follows `s`. -/
def predsFailWithin : List (Char → Bool) → List Char → Bool
  | [], _ => false
  | _ :: _, [] => false
  | p :: ps, c :: cs => !p c || predsFailWithin ps cs

/-- Every nonempty suffix of `a` definitely fails the AKIA shape inside
`a` itself (so an occurrence can never start inside `a`). -/
def blocksAkia (a : List Char) : Bool :=
  a.tails.all (fun s => s.isEmpty || predsFailWithin akiaPreds s)

/-- No suffix of `l` is matched by the token matcher `m`. -/
def noTokenMatch (m : List Char → Option (List Char × Nat)) :
    List Char → Bool
  | [] => true
  | c :: cs => (m (c :: cs)).isNone && noTokenMatch m cs

/-- No line of `l` is matched by the line predicate `pred`. -/
def noLineMatch (pred : List Char → Bool) (l : List Char) : Bool :=
  (splitLines l).all (fun ln => !pred ln)

/-- No pattern of the redaction pipeline matches anywhere in `l`. -/
def redactionFixed (l : List Char) : Bool :=
  noLineMatch (fileHeaderPred restEnvCheck) l &&
  noLineMatch (fileHeaderPred (endsWithCi (String.toList ".pem"))) l &&
  noLineMatch (fileHeaderPred (endsWithCi (String.toList ".key"))) l &&
  noLineMatch (fileHeaderPred (endsWithCi (String.toList ".p12"))) l &&
  noLineMatch (fileHeaderPred (endsWithCi (String.toList ".pfx"))) l &&
  noLineMatch (fileHeaderPred (containsCi (String.toList "id_rsa"))) l &&
  noLineMatch (fileHeaderPred (containsCi (String.toList "credentials"))) l &&
  noLineMatch (fileHeaderPred secretsCheck) l &&
  noLineMatch envContentPred l &&
  noTokenMatch mOpenai l && noTokenMatch mGithub l && noTokenMatch mSlack l &&
  noTokenMatch mAws l && noTokenMatch mStripe l && noTokenMatch mPem l &&
  noTokenMatch mJwt l && noTokenMatch mPassword l && noTokenMatch mDb l &&
  noTokenMatch mBearer l && noTokenMatch mDeepseek l && noTokenMatch mGoogle l

/-- The length-verdict reason strings of the scorer. -/
def isLengthVerdict (s : String) : Bool :=
  s == "appropriate length" || s == "too short" || s == "too long"

/-- The genericness-verdict reason strings of the scorer. -/
def isGenericnessVerdict (s : String) : Bool :=
  s == "descriptive" || s == "too generic"

/-! ## Theorems -/

/-- C8: the quality-scoring boundary examples hold exactly:
`score("feat: add oauth login flow") >= 7` with a well-formed verdict,
`score("update") < 7` with a reason containing "too generic", and
`score("fix: a")` has a reason containing "too short". -/
theorem c8_scoring_boundary_examples :
    7 ≤ (score_commit_message "feat: add oauth login flow").1 ∧
    (score_commit_message "feat: add oauth login flow").2.1 = true ∧
    (score_commit_message "update").1 < 7 ∧
    infixB (String.toList "too generic")
      (score_commit_message "update").2.2.toList = true ∧
    infixB (String.toList "too short")
      (score_commit_message "fix: a").2.2.toList = true := by
  decide

/-- C10: for every input message the scorer's reason list contains exactly
one length verdict and exactly one genericness verdict, and the returned
reason summary is neither the fallback "no specific issues" nor empty. -/
theorem c10_reason_always_structured (msg : String) :
    (scoreReasons msg.toList).countP (fun s => isLengthVerdict s) = 1 ∧
    (scoreReasons msg.toList).countP (fun s => isGenericnessVerdict s) = 1 ∧
    (score_commit_message msg).2.2 ≠ "no specific issues" ∧
    (score_commit_message msg).2.2 ≠ "" := by
  simp only [score_commit_message, scoreReasons]
  split_ifs <;> simp_all <;> decide

/-- C2 (evaluation at the failing input): the scorer's verdict is the
hard-coded `score >= 7` and the skip-gate uses that verdict, ignoring the
configured `min_quality_score`.  At threshold 5, the message
"Add the new parser" scores 5 (at the threshold), yet the verdict is
`false` and the gate still invokes the model backend. -/
theorem c2_gate_ignores_configured_threshold :
    (score_commit_message "Add the new parser").1 = 5 ∧
    ({ min_quality_score := 5 : RewriteOptions }).min_quality_score ≤
      (score_commit_message "Add the new parser").1 ∧
    (score_commit_message "Add the new parser").2.1 = false ∧
    (decideOne { min_quality_score := 5 }
        (fun _ => Except.ok "feat: rework parser")
        ⟨"h1", "Add the new parser", "Add the new parser", [], ""⟩).2 = true := by
  decide

/-- C3 (counterexample): `rewrite_history` applied to one decision but two
commits does not fail — it silently applies the single decision to the
first commit and leaves the second unchanged. -/
theorem c3_counterexample_silent_mismatch :
    List.length ["feat: improve parser"] ≠
      List.length ["old one", "old two"] ∧
    rewriteHistoryAll ["feat: improve parser"] ["old one", "old two"] =
      ["feat: improve parser", "old two"] := by
  decide

/-- Auxiliary: the msg-filter substitution preserves the commit count. -/
theorem rewrite_history_length (messages olds : List String) (counter : Nat) :
    (rewrite_history messages olds counter).length = olds.length := by
  induction olds generalizing counter with
  | nil => rfl
  | cons o os ih => simp [rewrite_history, ih]

/-- C3 (amended): the rewrite primitive performs no count check at all;
it always succeeds, preserves the commit count, and gives commit `i` the
message `decisions[i]` when that exists and is non-empty (the filter
script's Python truthiness check), and its original message otherwise —
also when `decisions[i]` is the empty string. -/
theorem c3_amended_positional_fallback (messages olds : List String)
    (counter i : Nat) (h : i < olds.length) :
    (rewrite_history messages olds counter).length = olds.length ∧
    (rewrite_history messages olds counter).getD i "" =
      (if (messages.getD (counter + i) "").isEmpty then olds.getD i ""
       else messages.getD (counter + i) "") := by
  refine ⟨rewrite_history_length messages olds counter, ?_⟩
  induction olds generalizing counter i with
  | nil => exact absurd h (by simp)
  | cons o os ih =>
    cases i with
    | zero => simp [rewrite_history]
    | succ j =>
      have hj : j < os.length := by simpa using h
      have := ih counter.succ j hj
      simpa [rewrite_history, Nat.add_assoc, Nat.add_comm, Nat.add_left_comm]
        using this

/-- C3 (witness for the amended theorem, exercising the truthiness branch:
an empty-string decision keeps the old message). -/
theorem c3_amended_witness :
    (0 : Nat) < List.length ["old subject"] ∧
    (rewrite_history [""] ["old subject"] 0).length =
      List.length ["old subject"] ∧
    (rewrite_history [""] ["old subject"] 0).getD 0 "" =
      (if (([""] : List String).getD (0 + 0) "").isEmpty
       then (["old subject"] : List String).getD 0 ""
       else ([""] : List String).getD (0 + 0) "") :=
  ⟨by decide,
   c3_amended_positional_fallback [""] ["old subject"] 0 0 (by decide)⟩

/-! ### Lemmas about the scanning loop -/

theorem lookupMap_insertMap_self (m : List (String × String)) (k v : String) :
    lookupMap (insertMap m k v) k = some v := by
  induction m with
  | nil => simp [insertMap, lookupMap]
  | cons kv rest ih =>
    obtain ⟨k1, v1⟩ := kv
    by_cases hk : k1 = k
    · simp [insertMap, lookupMap, hk]
    · simp [insertMap, lookupMap, hk, ih]

theorem lookupMap_insertMap_ne (m : List (String × String)) (k' v k : String)
    (h : k' ≠ k) : lookupMap (insertMap m k' v) k = lookupMap m k := by
  induction m with
  | nil => simp [insertMap, lookupMap, h]
  | cons kv rest ih =>
    obtain ⟨k1, v1⟩ := kv
    by_cases hk : k1 = k'
    · subst hk
      simp [insertMap, lookupMap, h]
    · by_cases h1 : k1 = k
      · subst h1
        simp [insertMap, lookupMap, hk]
      · simp [insertMap, lookupMap, hk, h1, ih]

theorem buildMessageMap_lookup_of_notin (opts : RewriteOptions)
    (gen : CommitData → Except String String) (cs : List CommitData)
    (m : List (String × String)) (k : String)
    (h : ∀ c ∈ cs, c.hash ≠ k) :
    lookupMap (buildMessageMap opts gen cs m) k = lookupMap m k := by
  induction cs generalizing m with
  | nil => rfl
  | cons c cs' ih =>
    have hc : c.hash ≠ k := h c (by simp)
    have hrest : ∀ c' ∈ cs', c'.hash ≠ k := fun c' hm => h c' (by simp [hm])
    cases hd : (decideOne opts gen c).1 with
    | none => simp [buildMessageMap, hd, ih _ hrest]
    | some v =>
      simp [buildMessageMap, hd, ih _ hrest, lookupMap_insertMap_ne _ _ _ _ hc]

theorem buildMessageMap_lookup (opts : RewriteOptions)
    (gen : CommitData → Except String String) (cs : List CommitData)
    (hn : (cs.map CommitData.hash).Nodup) (c : CommitData) (hc : c ∈ cs)
    (m : List (String × String)) (hm : lookupMap m c.hash = none) :
    lookupMap (buildMessageMap opts gen cs m) c.hash =
      (decideOne opts gen c).1 := by
  induction cs generalizing m with
  | nil => cases hc
  | cons c' cs' ih =>
    rw [List.map_cons, List.nodup_cons] at hn
    rcases List.mem_cons.mp hc with rfl | htail
    · have hrest : ∀ d ∈ cs', d.hash ≠ c.hash := by
        intro d hd hcon
        exact hn.1 (hcon ▸ List.mem_map_of_mem CommitData.hash hd)
      cases hd : (decideOne opts gen c).1 with
      | none =>
        simp [buildMessageMap, hd,
          buildMessageMap_lookup_of_notin opts gen cs' m c.hash hrest, hm]
      | some v =>
        simp [buildMessageMap, hd,
          buildMessageMap_lookup_of_notin opts gen cs' _ c.hash hrest,
          lookupMap_insertMap_self]
    · have hne : c'.hash ≠ c.hash := by
        intro hcon
        exact hn.1 (hcon ▸ List.mem_map_of_mem CommitData.hash htail)
      cases hd : (decideOne opts gen c').1 with
      | none => simpa [buildMessageMap, hd] using ih hn.2 htail m hm
      | some v =>
        have hm' : lookupMap (insertMap m c'.hash v) c.hash = none := by
          rw [lookupMap_insertMap_ne _ _ _ _ hne, hm]
        simpa [buildMessageMap, hd] using ih hn.2 htail _ hm'

/-- With distinct hashes (always true of a git commit range), the ordered
message list is the per-commit decision applied pointwise. -/
theorem orderedMessages_eq_map (opts : RewriteOptions)
    (gen : CommitData → Except String String) (commits : List CommitData)
    (hn : (commits.map CommitData.hash).Nodup) :
    orderedMessages opts gen commits =
      commits.map (fun c => ((decideOne opts gen c).1).getD c.fullMessage) := by
  unfold orderedMessages
  refine List.map_congr_left ?_
  intro c hc
  rw [buildMessageMap_lookup opts gen commits hn c hc [] rfl]

theorem getD_map_get {α β : Type} (f : α → β) (l : List α) (i : Nat)
    (h : i < l.length) (d : β) :
    (l.map f).getD i d = f (l.get ⟨i, h⟩) := by
  induction l generalizing i with
  | nil => exact absurd h (by simp)
  | cons a l' ih =>
    cases i with
    | zero => rfl
    | succ j => exact ih j (by simpa using h)

theorem orderedMessages_length (opts : RewriteOptions)
    (gen : CommitData → Except String String) (commits : List CommitData) :
    (orderedMessages opts gen commits).length = commits.length := by
  simp [orderedMessages]

/-- C5: with skip-well-formed enabled and a commit whose message passes the
well-formed gate, the engine does not invoke the model backend for that
commit and its ordered decision keeps the original full message. -/
theorem c5_skip_gate_no_model_call (opts : RewriteOptions)
    (gen : CommitData → Except String String) (commits : List CommitData)
    (i : Nat) (h : i < commits.length)
    (hn : (commits.map CommitData.hash).Nodup)
    (hskip : opts.skip_well_formed = true)
    (hgood : (score_commit_message (commits.get ⟨i, h⟩).subject).2.1 = true) :
    (decideOne opts gen (commits.get ⟨i, h⟩)).2 = false ∧
    (orderedMessages opts gen commits).getD i "" =
      (commits.get ⟨i, h⟩).fullMessage := by
  have hd : decideOne opts gen (commits.get ⟨i, h⟩) = (none, false) := by
    unfold decideOne
    rw [hskip, hgood]
    rfl
  refine ⟨by rw [hd], ?_⟩
  rw [orderedMessages_eq_map opts gen commits hn, getD_map_get _ _ i h, hd]
  rfl

/-- C5 (witness). -/
theorem c5_witness :
    (decideOne {} (fun _ => Except.error "unused")
        ⟨"h1", "feat: add parser", "feat: add parser\n\ndetails", [], ""⟩).2 =
      false ∧
    (orderedMessages {} (fun _ => Except.error "unused")
        [⟨"h1", "feat: add parser", "feat: add parser\n\ndetails", [], ""⟩]).getD
        0 "" = "feat: add parser\n\ndetails" :=
  c5_skip_gate_no_model_call {} (fun _ => Except.error "unused")
    [⟨"h1", "feat: add parser", "feat: add parser\n\ndetails", [], ""⟩]
    0 (by decide) (by decide) rfl (by decide)

/-- C6: a model-backend failure for one commit is fail-soft — that commit's
ordered decision keeps its original full message, the decision list still
covers every commit, and every commit's entry is its own per-commit
decision (so the rest of the run is unaffected). -/
theorem c6_generation_failure_fail_soft (opts : RewriteOptions)
    (gen : CommitData → Except String String) (commits : List CommitData)
    (i : Nat) (h : i < commits.length) (e : String)
    (hn : (commits.map CommitData.hash).Nodup)
    (herr : gen (commits.get ⟨i, h⟩) = Except.error e) :
    (orderedMessages opts gen commits).length = commits.length ∧
    (decideOne opts gen (commits.get ⟨i, h⟩)).1 = none ∧
    (orderedMessages opts gen commits).getD i "" =
      (commits.get ⟨i, h⟩).fullMessage ∧
    orderedMessages opts gen commits =
      commits.map (fun c => ((decideOne opts gen c).1).getD c.fullMessage) := by
  have hd : (decideOne opts gen (commits.get ⟨i, h⟩)).1 = none := by
    unfold decideOne
    split
    · rfl
    · rw [herr]
  refine ⟨orderedMessages_length opts gen commits, hd, ?_,
    orderedMessages_eq_map opts gen commits hn⟩
  rw [orderedMessages_eq_map opts gen commits hn, getD_map_get _ _ i h, hd]
  rfl

/-- C6 (witness). -/
theorem c6_witness :
    (orderedMessages {} (fun _ => Except.error "boom")
        [⟨"h1", "wip", "wip", [], ""⟩, ⟨"h2", "fix bug", "fix bug", [], ""⟩]).length =
      ([⟨"h1", "wip", "wip", [], ""⟩,
        ⟨"h2", "fix bug", "fix bug", [], ""⟩] : List CommitData).length ∧
    (decideOne {} (fun _ => Except.error "boom") ⟨"h1", "wip", "wip", [], ""⟩).1 =
      none ∧
    (orderedMessages {} (fun _ => Except.error "boom")
        [⟨"h1", "wip", "wip", [], ""⟩, ⟨"h2", "fix bug", "fix bug", [], ""⟩]).getD
        0 "" = "wip" ∧
    orderedMessages {} (fun _ => Except.error "boom")
        [⟨"h1", "wip", "wip", [], ""⟩, ⟨"h2", "fix bug", "fix bug", [], ""⟩] =
      ([⟨"h1", "wip", "wip", [], ""⟩,
        ⟨"h2", "fix bug", "fix bug", [], ""⟩] : List CommitData).map
        (fun c => ((decideOne {} (fun _ => Except.error "boom") c).1).getD
          c.fullMessage) :=
  c6_generation_failure_fail_soft {} (fun _ => Except.error "boom")
    [⟨"h1", "wip", "wip", [], ""⟩, ⟨"h2", "fix bug", "fix bug", [], ""⟩]
    0 (by decide) "boom" (by decide) rfl

/-- C7 (counterexample): in `generate_for_staged`, a consent decline — here
the implicit decline of quiet mode — raises a `RuntimeError` instead of
aborting cleanly. -/
theorem c7_counterexample_staged_decline_raises :
    generate_for_staged { quiet := true } ["app.py"]
        "diff --git a/app.py b/app.py" none (fun _ _ => Except.ok "feat: m") =
      Except.error "User declined to send data to remote AI provider" := rfl

/-- C7 (amended): in the history-rewrite operation, a consent decline —
including the implicit decline of quiet mode without the consent-bypass
flag — is a clean, non-error abort with no model call, no backup creation
and no apply step; and in quiet mode consent is always withheld. -/
theorem c7_amended_rewrite_decline_clean (opts : RewriteOptions)
    (repo : RepoState) (gen : CommitData → Except String String)
    (ans : Answers)
    (hremote : opts.provider ≠ "ollama")
    (hskip : opts.skip_remote_consent = false)
    (hdecl : opts.quiet = true ∨ ans.consent = some false ∨
      ans.consent = none) :
    checkRemoteApiConsent opts ans.consent = false ∧
    (rewriteRun opts repo gen ans).errorRaised = none ∧
    (rewriteRun opts repo gen ans).modelCalls = 0 ∧
    (rewriteRun opts repo gen ans).backupCreated = false ∧
    (rewriteRun opts repo gen ans).applyInvoked = false := by
  have hprov : (opts.provider == "ollama") = false := by
    simpa using hremote
  have hcons : checkRemoteApiConsent opts ans.consent = false := by
    unfold checkRemoteApiConsent
    rw [hprov, hskip]
    rcases hdecl with hq | hc | hc
    · simp [hq]
    · simp [hc]
    · simp [hc]
  refine ⟨hcons, ?_⟩
  unfold rewriteRun
  rw [hcons]
  split_ifs <;> simp_all [noopOutcome]

/-- C7 (witness for the amended theorem). -/
theorem c7_amended_witness :
    checkRemoteApiConsent { quiet := true } none = false ∧
    (rewriteRun { quiet := true }
        ⟨false, [⟨"h1", "wip", "wip", [], ""⟩], Except.ok ()⟩
        (fun _ => Except.ok "feat: m")
        ⟨none, none, none, none⟩).errorRaised = none ∧
    (rewriteRun { quiet := true }
        ⟨false, [⟨"h1", "wip", "wip", [], ""⟩], Except.ok ()⟩
        (fun _ => Except.ok "feat: m")
        ⟨none, none, none, none⟩).modelCalls = 0 ∧
    (rewriteRun { quiet := true }
        ⟨false, [⟨"h1", "wip", "wip", [], ""⟩], Except.ok ()⟩
        (fun _ => Except.ok "feat: m")
        ⟨none, none, none, none⟩).backupCreated = false ∧
    (rewriteRun { quiet := true }
        ⟨false, [⟨"h1", "wip", "wip", [], ""⟩], Except.ok ()⟩
        (fun _ => Except.ok "feat: m")
        ⟨none, none, none, none⟩).applyInvoked = false := by
  have h := c7_amended_rewrite_decline_clean { quiet := true }
    ⟨false, [⟨"h1", "wip", "wip", [], ""⟩], Except.ok ()⟩
    (fun _ => Except.ok "feat: m") ⟨none, none, none, none⟩
    (by decide) rfl (Or.inl rfl)
  exact ⟨h.1, h.2.1, h.2.2.1, h.2.2.2.1, h.2.2.2.2⟩

/-- C9: whenever a rewrite run created the backup branch, the backup is
deleted automatically exactly when zero commits needed changing; and when
at least one commit was rewritten and the apply step succeeded, the backup
is retained. -/
theorem c9_backup_lifecycle (opts : RewriteOptions) (repo : RepoState)
    (gen : CommitData → Except String String) (ans : Answers)
    (hb : (rewriteRun opts repo gen ans).backupCreated = true) :
    ((rewriteRun opts repo gen ans).backupDeleted = true ↔
      (rewriteRun opts repo gen ans).changedCount = 0) ∧
    ((rewriteRun opts repo gen ans).applyInvoked = true →
      (rewriteRun opts repo gen ans).errorRaised = none →
      0 < (rewriteRun opts repo gen ans).changedCount →
      (rewriteRun opts repo gen ans).backupDeleted = false) := by
  unfold rewriteRun at hb ⊢
  cases repo.applyResult with
  | ok u =>
    split_ifs at hb ⊢ <;> simp_all [noopOutcome] <;>
      (try (split_ifs at hb ⊢ <;> simp_all))
  | error e =>
    split_ifs at hb ⊢ <;> simp_all [noopOutcome] <;>
      (try (split_ifs at hb ⊢ <;> simp_all))

/-- C9 (witness): a run that creates a backup, rewrites one commit and
applies successfully retains the backup. -/
theorem c9_witness :
    ((rewriteRun {} ⟨false, [⟨"h1", "fix bug", "fix bug", ["a.py"], "d"⟩],
          Except.ok ()⟩ (fun _ => Except.ok "feat: resolve crash")
          ⟨some true, some true, some true, some true⟩).backupDeleted = true ↔
      (rewriteRun {} ⟨false, [⟨"h1", "fix bug", "fix bug", ["a.py"], "d"⟩],
          Except.ok ()⟩ (fun _ => Except.ok "feat: resolve crash")
          ⟨some true, some true, some true, some true⟩).changedCount = 0) ∧
    ((rewriteRun {} ⟨false, [⟨"h1", "fix bug", "fix bug", ["a.py"], "d"⟩],
          Except.ok ()⟩ (fun _ => Except.ok "feat: resolve crash")
          ⟨some true, some true, some true, some true⟩).applyInvoked = true →
      (rewriteRun {} ⟨false, [⟨"h1", "fix bug", "fix bug", ["a.py"], "d"⟩],
          Except.ok ()⟩ (fun _ => Except.ok "feat: resolve crash")
          ⟨some true, some true, some true, some true⟩).errorRaised = none →
      0 < (rewriteRun {} ⟨false, [⟨"h1", "fix bug", "fix bug", ["a.py"], "d"⟩],
          Except.ok ()⟩ (fun _ => Except.ok "feat: resolve crash")
          ⟨some true, some true, some true, some true⟩).changedCount →
      (rewriteRun {} ⟨false, [⟨"h1", "fix bug", "fix bug", ["a.py"], "d"⟩],
          Except.ok ()⟩ (fun _ => Except.ok "feat: resolve crash")
          ⟨some true, some true, some true, some true⟩).backupDeleted = false) :=
  c9_backup_lifecycle {} ⟨false, [⟨"h1", "fix bug", "fix bug", ["a.py"], "d"⟩],
    Except.ok ()⟩ (fun _ => Except.ok "feat: resolve crash")
    ⟨some true, some true, some true, some true⟩ (by decide)

/-! ### Lemmas about the redaction pipeline -/

theorem subRecFuel_of_noMatch (m : List Char → Option (List Char × Nat)) :
    ∀ (fuel : Nat) (l : List Char), noTokenMatch m l = true →
    subRecFuel m fuel l = l := by
  intro fuel
  induction fuel with
  | zero => intro l _; cases l <;> rfl
  | succ f ih =>
    intro l h
    cases l with
    | nil => rfl
    | cons c cs =>
      rw [noTokenMatch, Bool.and_eq_true] at h
      obtain ⟨h1, h2⟩ := h
      cases hm : m (c :: cs) with
      | some x => rw [hm] at h1; simp at h1
      | none => simp [subRecFuel, hm, ih cs h2]

theorem subRec_of_noMatch (m : List Char → Option (List Char × Nat))
    (l : List Char) (h : noTokenMatch m l = true) : subRec m l = l :=
  subRecFuel_of_noMatch m l.length l h

theorem splitLines_ne_nil (l : List Char) : splitLines l ≠ [] := by
  cases l with
  | nil => simp [splitLines]
  | cons c cs =>
    unfold splitLines
    split
    · simp
    · split <;> simp

theorem joinLines_single (a : List Char) : joinLines [a] = a := rfl

theorem joinLines_cons₂ (a b : List Char) (t : List (List Char)) :
    joinLines (a :: b :: t) = a ++ '\n' :: joinLines (b :: t) := rfl

theorem joinLines_splitLines (l : List Char) : joinLines (splitLines l) = l := by
  induction l with
  | nil => rfl
  | cons c cs ih =>
    obtain ⟨ln, rest, heq⟩ := List.exists_cons_of_ne_nil (splitLines_ne_nil cs)
    by_cases h : c = '\n'
    · subst h
      rw [splitLines]
      show joinLines ([] :: splitLines cs) = '\n' :: cs
      rw [heq, joinLines_cons₂, ← heq, ih]
      rfl
    · have hb : (c == '\n') = false := by simpa using h
      rw [splitLines, hb, if_neg (by simp), heq]
      cases rest with
      | nil =>
        have hln : ln = cs := by
          have hx := ih
          rw [heq, joinLines_single] at hx
          exact hx
        show joinLines [c :: ln] = c :: cs
        rw [joinLines_single, hln]
      | cons r rs =>
        have hcs : joinLines (ln :: r :: rs) = cs := by rw [← heq, ih]
        show joinLines ((c :: ln) :: r :: rs) = c :: cs
        rw [joinLines_cons₂, List.cons_append]
        rw [joinLines_cons₂] at hcs
        rw [hcs]

theorem flatten_map_single {α : Type} (l : List α) :
    (l.map (fun x => [x])).flatten = l := by
  induction l with
  | nil => rfl
  | cons a l' ih => simp [ih]

theorem lineSub_of_noMatch (pred : List Char → Bool) (sent : List Char)
    (l : List Char) (h : noLineMatch pred l = true) :
    lineSub pred sent l = l := by
  unfold noLineMatch at h
  rw [List.all_eq_true] at h
  unfold lineSub
  have hmap : (splitLines l).map (fun ln => if pred ln then [sent, []] else [ln]) =
      (splitLines l).map (fun ln => [ln]) := by
    apply List.map_congr_left
    intro ln hln
    have hp := h ln hln
    simp only [Bool.not_eq_true'] at hp
    simp [hp]
  rw [hmap, flatten_map_single, joinLines_splitLines]

/-- If no pattern matches anywhere in `l`, every pass of the pipeline is the
identity on `l`. -/
theorem redactList_of_fixed (l : List Char) (h : redactionFixed l = true) :
    redactList l = l := by
  unfold redactionFixed at h
  simp only [Bool.and_eq_true] at h
  obtain ⟨h, h21⟩ := h
  obtain ⟨h, h20⟩ := h
  obtain ⟨h, h19⟩ := h
  obtain ⟨h, h18⟩ := h
  obtain ⟨h, h17⟩ := h
  obtain ⟨h, h16⟩ := h
  obtain ⟨h, h15⟩ := h
  obtain ⟨h, h14⟩ := h
  obtain ⟨h, h13⟩ := h
  obtain ⟨h, h12⟩ := h
  obtain ⟨h, h11⟩ := h
  obtain ⟨h, h10⟩ := h
  obtain ⟨h, h9⟩ := h
  obtain ⟨h, h8⟩ := h
  obtain ⟨h, h7⟩ := h
  obtain ⟨h, h6⟩ := h
  obtain ⟨h, h5⟩ := h
  obtain ⟨h, h4⟩ := h
  obtain ⟨h, h3⟩ := h
  obtain ⟨h1, h2⟩ := h
  simp only [redactList]
  rw [lineSub_of_noMatch _ _ _ h1, lineSub_of_noMatch _ _ _ h2,
    lineSub_of_noMatch _ _ _ h3, lineSub_of_noMatch _ _ _ h4,
    lineSub_of_noMatch _ _ _ h5, lineSub_of_noMatch _ _ _ h6,
    lineSub_of_noMatch _ _ _ h7, lineSub_of_noMatch _ _ _ h8,
    lineSub_of_noMatch _ _ _ h9, subRec_of_noMatch _ _ h10,
    subRec_of_noMatch _ _ h11, subRec_of_noMatch _ _ h12,
    subRec_of_noMatch _ _ h13, subRec_of_noMatch _ _ h14,
    subRec_of_noMatch _ _ h15, subRec_of_noMatch _ _ h16,
    subRec_of_noMatch _ _ h17, subRec_of_noMatch _ _ h18,
    subRec_of_noMatch _ _ h19, subRec_of_noMatch _ _ h20,
    subRec_of_noMatch _ _ h21]

set_option maxRecDepth 20000 in
set_option maxHeartbeats 2000000 in
/-- C4 (counterexample): redaction is not idempotent.  The Bearer
replacement's case normalization recreates an `AKIA` secret, which the
second application then redacts again. -/
theorem c4_counterexample_not_idempotent :
    redact_sensitive_data (redact_sensitive_data
        "AKIA000000000000000B AKIA000000000000000bearer t.t") ≠
      redact_sensitive_data
        "AKIA000000000000000B AKIA000000000000000bearer t.t" := by
  decide

/-- C4 (amended): redaction is idempotent on every input whose redacted form
is match-free — i.e. whenever no redaction pattern matches the first output
(the hedge of the documented contract fails for the actual pattern set,
because a replacement token juxtaposed with retained text can form a fresh
match). -/
theorem string_mk_toList (s : String) : String.mk s.toList = s := rfl

theorem c4_amended_idempotent_on_fixed_output (x : String)
    (h : redactionFixed (redact_sensitive_data x).toList = true) :
    redact_sensitive_data (redact_sensitive_data x) =
      redact_sensitive_data x := by
  have key := redactList_of_fixed _ h
  show String.mk (redactList (redact_sensitive_data x).toList) =
    redact_sensitive_data x
  rw [key]
  exact string_mk_toList (redact_sensitive_data x)

set_option maxRecDepth 20000 in
set_option maxHeartbeats 2000000 in
/-- C4 (witness for the amended theorem). -/
theorem c4_amended_witness :
    redactionFixed (redact_sensitive_data "hello world").toList = true ∧
    redact_sensitive_data (redact_sensitive_data "hello world") =
      redact_sensitive_data "hello world" :=
  ⟨by decide, c4_amended_idempotent_on_fixed_output "hello world" (by decide)⟩

/-! ### The AWS-key pass removes every AKIA-format secret -/

theorem predsFailWithin_spec (ps : List (Char → Bool)) (s : List Char)
    (h : predsFailWithin ps s = true) (t : List Char) :
    matchesPreds ps (s ++ t) = false := by
  induction ps generalizing s with
  | nil =>
    rw [predsFailWithin] at h
    exact absurd h (by simp)
  | cons p ps' ih =>
    cases s with
    | nil =>
      rw [predsFailWithin] at h
      exact absurd h (by simp)
    | cons c cs =>
      rw [predsFailWithin, Bool.or_eq_true] at h
      rcases h with h1 | h2
      · rw [Bool.not_eq_true'] at h1
        simp [matchesPreds, h1]
      · rw [List.cons_append]
        simp [matchesPreds, ih cs h2]

theorem hasAkiaB_append_of_blocks (a : List Char) (hb : blocksAkia a = true)
    (t : List Char) : hasAkiaB (a ++ t) = hasAkiaB t := by
  induction a with
  | nil => rfl
  | cons c cs ih =>
    unfold blocksAkia at hb
    rw [List.tails_cons, List.all_cons, Bool.and_eq_true] at hb
    obtain ⟨hhd, htl⟩ := hb
    have hfail : predsFailWithin akiaPreds (c :: cs) = true := by
      simpa using hhd
    have hblocks : blocksAkia cs = true := htl
    have hst : startsAkia ((c :: cs) ++ t) = false := by
      unfold startsAkia
      exact predsFailWithin_spec akiaPreds (c :: cs) hfail t
    rw [List.cons_append] at hst ⊢
    simp only [hasAkiaB, hst, Bool.false_or]
    exact ih hblocks

theorem blocksAkia_tokAws : blocksAkia tokAws = true := by decide

theorem matchesPreds_subRecFuel_mAws : ∀ (fuel : Nat) (cs : List Char)
    (ps : List (Char → Bool)), (∀ p ∈ ps, p '[' = false) →
    matchesPreds ps (subRecFuel mAws fuel cs) = true →
    matchesPreds ps cs = true := by
  intro fuel
  induction fuel with
  | zero =>
    intro cs ps _ h
    cases cs with
    | nil => exact h
    | cons c cs' => exact h
  | succ f ih =>
    intro cs ps hps h
    cases cs with
    | nil => exact h
    | cons c cs' =>
      by_cases hak : startsAkia (c :: cs') = true
      · have hsub : subRecFuel mAws (f + 1) (c :: cs') =
            tokAws ++ subRecFuel mAws f (cs'.drop 19) := by
          simp [subRecFuel, mAws, hak]
        rw [hsub] at h
        cases ps with
        | nil => rfl
        | cons p ps' =>
          have hp : p '[' = false := hps p (by simp)
          rw [show tokAws = '[' :: tokAws.tail from rfl, List.cons_append] at h
          simp [matchesPreds, hp] at h
      · have hak' : startsAkia (c :: cs') = false := by simpa using hak
        have hsub : subRecFuel mAws (f + 1) (c :: cs') =
            c :: subRecFuel mAws f cs' := by
          simp [subRecFuel, mAws, hak']
        rw [hsub] at h
        cases ps with
        | nil => rfl
        | cons p ps' =>
          simp only [matchesPreds, Bool.and_eq_true] at h ⊢
          exact ⟨h.1, ih cs' ps' (fun q hq => hps q (by simp [hq])) h.2⟩

theorem akiaPreds_tail_false :
    ∀ p ∈ ((fun c => c == 'K') :: (fun c => c == 'I') :: (fun c => c == 'A') ::
      List.replicate 16 isUpperAlnum : List (Char → Bool)), p '[' = false := by
  intro p hp
  rcases List.mem_cons.mp hp with rfl | hp
  · rfl
  rcases List.mem_cons.mp hp with rfl | hp
  · rfl
  rcases List.mem_cons.mp hp with rfl | hp
  · rfl
  rw [List.eq_of_mem_replicate hp]
  rfl

theorem hasAkiaB_subRecFuel_mAws : ∀ (fuel : Nat) (l : List Char),
    l.length ≤ fuel → hasAkiaB (subRecFuel mAws fuel l) = false := by
  intro fuel
  induction fuel with
  | zero =>
    intro l hl
    have hnil : l = [] := List.eq_nil_of_length_eq_zero (Nat.le_zero.mp hl)
    subst hnil
    rfl
  | succ f ihn =>
    intro l hl
    cases l with
    | nil => rfl
    | cons c cs =>
      rw [List.length_cons] at hl
      by_cases hak : startsAkia (c :: cs) = true
      · have hsub : subRecFuel mAws (f + 1) (c :: cs) =
            tokAws ++ subRecFuel mAws f (cs.drop 19) := by
          simp [subRecFuel, mAws, hak]
        rw [hsub, hasAkiaB_append_of_blocks tokAws blocksAkia_tokAws]
        exact ihn (cs.drop 19) (by simp only [List.length_drop]; omega)
      · have hak' : startsAkia (c :: cs) = false := by simpa using hak
        have hsub : subRecFuel mAws (f + 1) (c :: cs) =
            c :: subRecFuel mAws f cs := by
          simp [subRecFuel, mAws, hak']
        rw [hsub]
        have h2 : hasAkiaB (subRecFuel mAws f cs) = false := ihn cs (by omega)
        simp only [hasAkiaB, h2, Bool.or_false]
        by_contra hcon
        have hcon' : startsAkia (c :: subRecFuel mAws f cs) = true := by
          simpa using hcon
        unfold startsAkia akiaPreds at hcon'
        simp only [matchesPreds, Bool.and_eq_true] at hcon'
        obtain ⟨hc, hrest⟩ := hcon'
        have hpres :=
          matchesPreds_subRecFuel_mAws f cs _ akiaPreds_tail_false hrest
        have hall : matchesPreds akiaPreds (c :: cs) = true := by
          simp only [akiaPreds, matchesPreds, Bool.and_eq_true]
          exact ⟨hc, hpres⟩
        unfold startsAkia at hak'
        rw [hall] at hak'
        cases hak'

/-- C1 (amended): the AWS access-key substitution pass removes every AKIA
secret — its output never contains any substring matching `AKIA` followed
by 16 uppercase alphanumerics.  (The full pipeline can only reproduce the
original secret through a later replacement's fixed text, per the
counterexample.) -/
theorem c1_amended_aws_pass_removes_all (l : List Char) :
    hasAkiaB (subRec mAws l) = false :=
  hasAkiaB_subRecFuel_mAws l.length l le_rfl

set_option maxRecDepth 20000 in
set_option maxHeartbeats 2000000 in
/-- C1 (counterexample): the input contains the AKIA secret
`AKIA000000000000000B`; the full redaction output still contains that very
substring, recreated by the Bearer replacement's case normalization next to
retained text. -/
theorem c1_counterexample_secret_reappears :
    startsAkia (String.toList "AKIA000000000000000B") = true ∧
    infixB (String.toList "AKIA000000000000000B")
      (String.toList "AKIA000000000000000B AKIA000000000000000bearer t.t") =
      true ∧
    infixB (String.toList "AKIA000000000000000B")
      (redact_sensitive_data
        "AKIA000000000000000B AKIA000000000000000bearer t.t").toList =
      true := by
  decide

end GitRewriteCommits
